import Mathlib

/-!
Shallow embedding of the dxkb split-keyboard firmware core, and proofs about
the behaviour of its layer stack, bounded indices, HID consumer-control
report, per-key debouncer, split-link engine and frame codec.  Every
definition mirrors a function of the Rust sources (crate and file given in
each doc comment); machine integers are modelled as `Nat` with explicit
`% 256` / `% 65536` wrapping where the source relies on wrapping arithmetic.
-/

set_option maxRecDepth 8000

deriving instance DecidableEq for Except

namespace Dxkb

/-- Key state of a single key (`dxkb-common/src/key.rs`, `KeyState`). -/
inductive KeyState where
  | Released
  | Pressed
deriving DecidableEq

/-- `KeyState::to_bool` (`dxkb-common/src/key.rs`): `Pressed = true`. -/
def KeyState.to_bool : KeyState → Bool
  | .Released => false
  | .Pressed => true

/-! ## Bounded indices (`dxkb-common/src/util/bounded_index.rs`) -/

/-- `BoundedU8<LENGTH>`: a `u8` wrapper intended to hold values `< LENGTH`.
The Rust type state is a single `u8`; we model it as a `Nat` (the source
only ever constructs values `< 256`). -/
structure BoundedU8 (LENGTH : Nat) where
  val : Nat
deriving DecidableEq

/-- `BoundedU8::from_value`: validates `val < LENGTH`. -/
def BoundedU8.from_value (LENGTH : Nat) (v : Nat) : Option (BoundedU8 LENGTH) :=
  if v < LENGTH then some ⟨v⟩ else none

/-- `BoundedU8::increment` (`bounded_index.rs` lines 60-69): returns `None`
when `self.0 >= LENGTH || self.0 == u8::MAX`, else `Some(self.0 + 1)`
(built with `from_value_unchecked`, i.e. without re-validation). -/
def BoundedU8.increment {LENGTH : Nat} (b : BoundedU8 LENGTH) :
    Option (BoundedU8 LENGTH) :=
  if LENGTH ≤ b.val ∨ b.val = 255 then none else some ⟨b.val + 1⟩

/-! ## Layer stack (`dxkb-core/src/keyboard.rs`, `SplitKeyboardLayout`) -/

/-- The layer-stack-relevant fields of `SplitKeyboardLayout`:
`layers_stack: heapless::Vec<u8, 8>` (top of the stack at the end) and
`current_layer: BoundedIndex<LAYERS>` (modelled as its `usize` payload). -/
structure SplitKeyboardLayout (LAYERS : Nat) where
  layers_stack : List Nat
  current_layer : Nat
deriving DecidableEq

/-- Initial layer state from `SplitKeyboardLayout::new`: empty stack,
`current_layer = 0`. -/
def SplitKeyboardLayout.init (LAYERS : Nat) : SplitKeyboardLayout LAYERS :=
  ⟨[], 0⟩

/-- `SplitKeyboardLayout::push_layer` (`keyboard.rs` lines 722-734): validate
`new_layer < LAYERS` via `BoundedIndex::from_value` (on failure log and
return `false`); push onto `layers_stack`, overwriting the top slot when the
8-element vector is full; set `current_layer := new_layer`. -/
def SplitKeyboardLayout.push_layer {LAYERS : Nat}
    (s : SplitKeyboardLayout LAYERS) (new_layer : Nat) :
    Bool × SplitKeyboardLayout LAYERS :=
  if new_layer < LAYERS then
    let stack :=
      if s.layers_stack.length < 8 then s.layers_stack ++ [new_layer]
      else s.layers_stack.set (s.layers_stack.length - 1) new_layer
    (true, ⟨stack, new_layer⟩)
  else
    (false, s)

/-- `SplitKeyboardLayout::pop_layer` (`keyboard.rs` lines 736-745): pop the
top of `layers_stack`; when an element `head` was popped the source sets
`current_layer := BoundedIndex::from_value(head).unwrap()`, i.e. the current
layer becomes the popped element itself. Empty stack: return `None`, state
unchanged. -/
def SplitKeyboardLayout.pop_layer {LAYERS : Nat}
    (s : SplitKeyboardLayout LAYERS) :
    Option Nat × SplitKeyboardLayout LAYERS :=
  match s.layers_stack.getLast? with
  | some head => (some head, ⟨s.layers_stack.dropLast, head⟩)
  | none => (none, s)

/-! ## HID consumer-control report (`dxkb-core/src/hid.rs`) -/

/-- Result of `lookup_or_find_empty_mut` (`hid.rs` lines 22-26); `Found`/`Empty`
carry the index of the returned mutable reference. -/
inductive LookOrFindEmptyMutResult where
  | Found (i : Nat)
  | Empty (i : Nat)
  | Full
deriving DecidableEq

/-- The loop of `lookup_or_find_empty_mut` (`hid.rs` lines 28-43): scan the
slots in index order; return `Found i` as soon as slot `i` equals `needle`;
remember in `last_empty_idx` the index of every slot equal to `empty` seen so
far (so it ends at the highest such index); after the loop return `Empty` at
the remembered index, or `Full` when none was seen. -/
def lookup_or_find_empty_go (needle empty : Nat) :
    Nat → Option Nat → List Nat → LookOrFindEmptyMutResult
  | _, last_empty_idx, [] =>
    match last_empty_idx with
    | none => .Full
    | some i => .Empty i
  | i, last_empty_idx, b :: rest =>
    if b = needle then .Found i
    else lookup_or_find_empty_go needle empty (i + 1)
      (if b = empty then some i else last_empty_idx) rest

/-- `lookup_or_find_empty_mut` over the whole slot array
(`last_empty_idx` starts at `-1`, i.e. `none`). -/
def lookup_or_find_empty_mut (haystick : List Nat) (needle empty : Nat) :
    LookOrFindEmptyMutResult :=
  lookup_or_find_empty_go needle empty 0 none haystick

/-- `KeyboardKeyChangeError` (`hid.rs` lines 45-49). -/
inductive KeyboardKeyChangeError where
  | Unsupported
  | InvalidState
  | Rollover
deriving DecidableEq

/-- `REPORT_HID_CC_USAGE_MIN` (`hid.rs` line 104). -/
def REPORT_HID_CC_USAGE_MIN : Nat := 0x01

/-- `REPORT_HID_CC_USAGE_MAX` (`hid.rs` line 105). -/
def REPORT_HID_CC_USAGE_MAX : Nat := 0x514

/-- The consumer-control half of `ReportHidKeyboard`: the 31 `u16` slots of
`ReportHidConsumerControlInReport::pressed_buttons` and the report's dirty
flag (`MutableReport`). -/
structure CcReport where
  pressed_buttons : List Nat
  dirty : Bool
deriving DecidableEq

/-- Initial consumer-control report (`ReportHidConsumerControlInReport::new`):
31 zeroed slots, not dirty. -/
def CcReport.init : CcReport := ⟨List.replicate 31 0, false⟩

/-- `ReportHidKeyboard::press_consumer_control_key` (`hid.rs` lines 410-433):
bounds-check the usage (`ensure_cc_within_bounds`), then dispatch on
`lookup_or_find_empty_mut(pressed_buttons, key, 0)`: already present →
`InvalidState`; an empty slot found → write `key` there and set the dirty
flag; no empty slot → `Rollover`. Returned alongside the updated state. -/
def press_consumer_control_key (st : CcReport) (key : Nat) :
    Except KeyboardKeyChangeError Unit × CcReport :=
  if key < REPORT_HID_CC_USAGE_MIN ∨ REPORT_HID_CC_USAGE_MAX < key then
    (.error .Unsupported, st)
  else
    match lookup_or_find_empty_mut st.pressed_buttons key 0 with
    | .Found _ => (.error .InvalidState, st)
    | .Empty i => (.ok (), ⟨st.pressed_buttons.set i key, true⟩)
    | .Full => (.error .Rollover, st)

/-! ## Eager per-key debouncer (`dxkb-peripheral/src/key_matrix.rs`) -/

/-- `DebouncerEagerPerKey::diff_time` (`key_matrix.rs` lines 270-277):
`newer - older` when `newer >= older`, else `255 - older + newer`. -/
def diff_time (newer older : Nat) : Nat :=
  if older ≤ newer then newer - older else 255 - older + newer

/-- `DebouncerEagerPerKey` state (`key_matrix.rs` lines 237-251): per-key
`last_change_millis` slots, row-major (`row * COLS + col`); `0xff` means the
slot is quiescent. -/
structure DebouncerEagerPerKey where
  last_change_millis : List Nat
deriving DecidableEq

/-- `DebouncerEagerPerKey::new`: every slot quiescent. -/
def DebouncerEagerPerKey.init (n : Nat) : DebouncerEagerPerKey :=
  ⟨List.replicate n 0xff⟩

/-- `DebouncerEagerPerKey::debounce` (`key_matrix.rs` lines 284-326):
`wrapped_millis = current_millis % 254`; if the slot is armed (≠ `0xff`) and
`diff_time(wrapped_millis, slot) < DEBOUNCE_MILLIS`, return `prev_state`
unchanged; otherwise (armed and timed out, the slot is first re-armed to
`0xff`; or quiescent) the common tail stores `wrapped_millis` in the slot
exactly when `prev_state ≠ last_read_state`, and returns `last_read_state`. -/
def debounce (DEBOUNCE_MILLIS COLS : Nat) (st : DebouncerEagerPerKey)
    (row col current_millis : Nat) (prev_state last_read_state : KeyState) :
    KeyState × DebouncerEagerPerKey :=
  let wrapped_millis := current_millis % 254
  let idx := row * COLS + col
  let slot := st.last_change_millis.getD idx 0xff
  if slot ≠ 0xff then
    if diff_time wrapped_millis slot < DEBOUNCE_MILLIS then
      (prev_state, st)
    else
      if prev_state ≠ last_read_state then
        (last_read_state, ⟨st.last_change_millis.set idx wrapped_millis⟩)
      else
        (last_read_state, ⟨st.last_change_millis.set idx 0xff⟩)
  else
    if prev_state ≠ last_read_state then
      (last_read_state, ⟨st.last_change_millis.set idx wrapped_millis⟩)
    else
      (last_read_state, st)

/-! ## Split link engine (`dxkb-split-link/src/lib.rs`) -/

/-- `LinkStatus` (`lib.rs` lines 179-190). -/
inductive LinkStatus where
  | Down
  | Sync
  | Up
deriving DecidableEq

/-- `FrameContent<M>` (`lib.rs` lines 126-134); serde variant indices follow
declaration order: `LinkProbe = 0`, `Ack = 1`, `SyncAck = 2`, `Sync = 3`,
`TransportMessage = 4`. -/
inductive FrameContent (M : Type) where
  | LinkProbe
  | Ack
  | SyncAck
  | Sync
  | TransportMessage (msg : M)
deriving DecidableEq

/-- `FrameContentEnvelope<M>` (`lib.rs` lines 119-124): the CRC-covered part
of a frame, a sequence byte plus the content. -/
structure FrameContentEnvelope (M : Type) where
  seq : Nat
  content : FrameContent M
deriving DecidableEq

/-- `Frame<M>` (`lib.rs` lines 111-115). -/
structure Frame (M : Type) where
  crc : Nat
  envelope : FrameContentEnvelope M
deriving DecidableEq

/-- `NoMsg` (`lib.rs` line 109): uninhabited message type used for control
frames. -/
inductive NoMsg where
deriving DecidableEq

/-- `SplitKeyboardLinkMessage` (`dxkb-core/src/keyboard.rs` lines 73-77): the
transport message the keyboard halves exchange; both fields are `u8`s. -/
inductive SplitKeyboardLinkMessage where
  | MatrixKeyDown (row col : Nat)
  | MatrixKeyUp (row col : Nat)
deriving DecidableEq

/-- `seq_diff` (`lib.rs` lines 100-106): `new.wrapping_sub(cur) as i8`, the
difference in Z/256 interpreted in `[-128, 127]`. -/
def seq_diff (new cur : Nat) : Int :=
  let d := (new % 256 + 256 - cur % 256) % 256
  if d < 128 then (d : Int) else (d : Int) - 256

/-- The mutable state of `SplitBus` (`lib.rs` lines 220-262): clock instants
are `Nat`s and the two `ConstGenericRingBuffer<_, TX_QUEUE_LEN>` queues are
lists with the oldest element at the head; the capacity `TX_QUEUE_LEN` is
passed to the operations that need it. -/
structure SplitBusState (Msg : Type) where
  link_status : LinkStatus
  last_link_status_change_time : Nat
  last_recv_frame_time : Nat
  last_sent_frame_time : Nat
  user_msg_pending_ack_sent_time : Option Nat
  tx_seq : Nat
  rx_seq : Nat
  control_tx_queue : List (FrameContentEnvelope NoMsg)
  user_tx_queue : List Msg
deriving DecidableEq

/-- `SplitBus::new` (`lib.rs` lines 287-305). -/
def SplitBus.init (Msg : Type) (now : Nat) : SplitBusState Msg :=
  { link_status := .Down
    last_link_status_change_time := now
    last_recv_frame_time := now
    last_sent_frame_time := now
    user_msg_pending_ack_sent_time := none
    tx_seq := 0
    rx_seq := 0
    control_tx_queue := []
    user_tx_queue := [] }

/-- `TransferError` (`lib.rs` lines 143-147). -/
inductive TransferError where
  | BufferOverflow
  | LinkDown
deriving DecidableEq

/-- The abort raised by the `panic!` in `push_control_frame` when the
control TX queue is full. -/
inductive LinkPanic where
  | ControlTxQueueFull
deriving DecidableEq

/-- `SplitBus::change_link_state` (`lib.rs` lines 358-385): when the state
actually changes, record the change time; a transition to `Down`
additionally resets the RX/TX times, clears the pending ACK and empties both
queues. -/
def change_link_state {Msg : Type} (now : Nat) (s : SplitBusState Msg)
    (new_state : LinkStatus) : SplitBusState Msg :=
  if s.link_status ≠ new_state then
    let s1 := { s with last_link_status_change_time := now, link_status := new_state }
    if new_state = LinkStatus.Down then
      { s1 with last_recv_frame_time := now
                last_sent_frame_time := now
                user_msg_pending_ack_sent_time := none
                control_tx_queue := []
                user_tx_queue := [] }
    else s1
  else s

/-- `SplitBus::push_control_frame` (`lib.rs` lines 387-393): panics when the
control TX queue is full (modelled as the `error` case), else enqueues. -/
def push_control_frame {Msg : Type} (cap : Nat) (s : SplitBusState Msg)
    (frame : FrameContentEnvelope NoMsg) : Except LinkPanic (SplitBusState Msg) :=
  if s.control_tx_queue.length = cap then .error .ControlTxQueueFull
  else .ok { s with control_tx_queue := s.control_tx_queue ++ [frame] }

/-- `SplitBus::reset_sequence_numbers` (`lib.rs` lines 344-348). -/
def reset_sequence_numbers {Msg : Type} (s : SplitBusState Msg) : SplitBusState Msg :=
  { s with tx_seq := 0, rx_seq := 0 }

/-- `SplitBus::handle_rx_frame` (`lib.rs` lines 402-536). The user callback
`recvf` is a pure function; when the source invokes `recvf(msg)` the model
reports the delivered message as `some msg` and uses the callback result as
the returned continue flag, which is otherwise `true`. -/
def handle_rx_frame {Msg : Type} (cap now : Nat) (recvf : Msg → Bool)
    (s : SplitBusState Msg) (frame : Frame Msg) :
    Except LinkPanic (SplitBusState Msg × Bool × Option Msg) :=
  match frame.envelope.content with
  | .LinkProbe =>
    if s.link_status = .Down then
      match push_control_frame cap (change_link_state now s .Sync) ⟨0, .Sync⟩ with
      | .error e => .error e
      | .ok s' => .ok (s', true, none)
    else .ok (s, true, none)
  | .Ack =>
    if seq_diff frame.envelope.seq s.tx_seq < 0 then
      .ok (s, true, none)
    else
      let s1 :=
        if s.user_msg_pending_ack_sent_time.isSome then
          { s with user_msg_pending_ack_sent_time := none
                   user_tx_queue := s.user_tx_queue.tail }
        else s
      .ok ({ s1 with tx_seq := (frame.envelope.seq + 1) % 256 }, true, none)
  | .SyncAck =>
    if s.link_status = .Sync then
      .ok (reset_sequence_numbers (change_link_state now s .Up), true, none)
    else .ok (s, true, none)
  | .Sync =>
    match push_control_frame cap
        (reset_sequence_numbers (change_link_state now s .Up)) ⟨0, .SyncAck⟩ with
    | .error e => .error e
    | .ok s' => .ok (s', true, none)
  | .TransportMessage m =>
    if s.link_status = .Up then
      match push_control_frame cap s ⟨frame.envelope.seq, .Ack⟩ with
      | .error e => .error e
      | .ok s1 =>
        if seq_diff frame.envelope.seq s.rx_seq < 0 then
          .ok (s1, true, none)
        else
          .ok ({ s1 with rx_seq := (frame.envelope.seq + 1) % 256 }, recvf m, some m)
    else .ok (s, true, none)

/-- `SplitBus::transfer` (`lib.rs` lines 703-714): `LinkDown` unless the
link is `Up`, `BufferOverflow` when the user TX queue is full, otherwise the
message is appended; the state is returned unchanged on either error. -/
def transfer {Msg : Type} (cap : Nat) (s : SplitBusState Msg) (message : Msg) :
    Except TransferError Unit × SplitBusState Msg :=
  if s.link_status ≠ .Up then (.error .LinkDown, s)
  else if s.user_tx_queue.length = cap then (.error .BufferOverflow, s)
  else (.ok (), { s with user_tx_queue := s.user_tx_queue ++ [message] })

/-! ## Frame codec (`dxkb-split-link/src/lib.rs`, ssmarshal + CRC-8-SMBUS) -/

/-- One shift of the CRC-8-SMBUS update (polynomial `0x07`, MSB first, as
configured by `crc::CRC_8_SMBUS` at `lib.rs` line 97): shift left modulo
256, xoring in the polynomial when the top bit was set. -/
def crc8_step (crc : Nat) : Nat :=
  if crc.testBit 7 then ((crc * 2) % 256) ^^^ 0x07 else (crc * 2) % 256

/-- Iterate `crc8_step`. -/
def crc8_rounds : Nat → Nat → Nat
  | 0, crc => crc
  | n + 1, crc => crc8_rounds n (crc8_step crc)

/-- CRC-8-SMBUS byte update: xor the byte into the accumulator, then eight
shift steps (init `0x00`, no reflection, xorout `0x00`). -/
def crc8_feed (crc b : Nat) : Nat :=
  crc8_rounds 8 ((crc ^^^ b) % 256)

/-- `SplitBus::crc8` (`lib.rs` lines 307-311): CRC-8-SMBUS of a byte list. -/
def crc8 (buf : List Nat) : Nat :=
  buf.foldl crc8_feed 0

/-- ssmarshal serialization of `SplitKeyboardLinkMessage` (derived
`Serialize`): one variant-index byte (`MatrixKeyDown = 0`, `MatrixKeyUp = 1`)
followed by the `row` and `col` bytes. -/
def serialize_msg : SplitKeyboardLinkMessage → List Nat
  | .MatrixKeyDown row col => [0, row, col]
  | .MatrixKeyUp row col => [1, row, col]

/-- ssmarshal deserialization of `SplitKeyboardLinkMessage`: reads the
variant byte then the two field bytes, returning the consumed count;
unknown variant bytes or truncated input fail. -/
def deserialize_msg : List Nat → Option (SplitKeyboardLinkMessage × Nat)
  | t :: rest =>
    if t = 0 then
      match rest with
      | row :: col :: _ => some (.MatrixKeyDown row col, 3)
      | _ => none
    else if t = 1 then
      match rest with
      | row :: col :: _ => some (.MatrixKeyUp row col, 3)
      | _ => none
    else none
  | [] => none

/-- ssmarshal serialization of `FrameContent<SplitKeyboardLinkMessage>`:
variant-index byte then the payload bytes. -/
def serialize_content : FrameContent SplitKeyboardLinkMessage → List Nat
  | .LinkProbe => [0]
  | .Ack => [1]
  | .SyncAck => [2]
  | .Sync => [3]
  | .TransportMessage m => 4 :: serialize_msg m

/-- ssmarshal deserialization of `FrameContent<SplitKeyboardLinkMessage>`. -/
def deserialize_content : List Nat → Option (FrameContent SplitKeyboardLinkMessage × Nat)
  | t :: rest =>
    if t = 0 then some (.LinkProbe, 1)
    else if t = 1 then some (.Ack, 1)
    else if t = 2 then some (.SyncAck, 1)
    else if t = 3 then some (.Sync, 1)
    else if t = 4 then
      match deserialize_msg rest with
      | some (m, n) => some (.TransportMessage m, n + 1)
      | none => none
    else none
  | [] => none

/-- ssmarshal serialization of `FrameContentEnvelope` (field order: `seq`,
then `content`). -/
def serialize_envelope (e : FrameContentEnvelope SplitKeyboardLinkMessage) : List Nat :=
  e.seq :: serialize_content e.content

/-- ssmarshal deserialization of `FrameContentEnvelope`. -/
def deserialize_envelope : List Nat → Option (FrameContentEnvelope SplitKeyboardLinkMessage × Nat)
  | s :: rest =>
    match deserialize_content rest with
    | some (c, n) => some (⟨s, c⟩, n + 1)
    | none => none
  | [] => none

/-- `SplitBus::encode_frame` (`lib.rs` lines 571-576): `buf[0]` is the
prelude byte `0x99`, the envelope is ssmarshal-serialized from offset 2, and
`buf[1]` is the CRC-8 of exactly those serialized bytes. -/
def encode_frame (frame : FrameContentEnvelope SplitKeyboardLinkMessage) : List Nat :=
  0x99 :: crc8 (serialize_envelope frame) :: serialize_envelope frame

/-- `FrameDecodeError` (`lib.rs` lines 136-141); the ssmarshal error detail
is dropped. -/
inductive FrameDecodeError where
  | PreludeError
  | CrcError
  | SerdeError
deriving DecidableEq

/-- `SplitBus::decode_frame` (`lib.rs` lines 313-342): require at least 4
bytes, check the prelude byte, ssmarshal-deserialize the envelope from
offset 2, recompute the CRC over the consumed bytes and compare with
`buf[1]`; leftover bytes are only logged. -/
def decode_frame (buf : List Nat) :
    Except FrameDecodeError (Frame SplitKeyboardLinkMessage) :=
  if buf.length < 4 then .error .SerdeError
  else
    match buf with
    | b0 :: crc :: envelope_bytes =>
      if b0 ≠ 0x99 then .error .PreludeError
      else
        match deserialize_envelope envelope_bytes with
        | none => .error .SerdeError
        | some (envelope, read_bytes) =>
          if crc ≠ crc8 (envelope_bytes.take read_bytes) then .error .CrcError
          else .ok ⟨crc, envelope⟩
    | _ => .error .SerdeError

/-- `SplitBus::do_rx` (`lib.rs` lines 538-569) with the bus's pending RX
buffers given as a list (the empty list plays `WouldBlock`): decode each
buffer, drop undecodable frames and keep polling, stamp
`last_recv_frame_time` and handle decoded frames, stopping early when the
handler's continue flag is false. -/
def do_rx (cap now : Nat) (recvf : SplitKeyboardLinkMessage → Bool) :
    SplitBusState SplitKeyboardLinkMessage → List (List Nat) →
    Except LinkPanic (SplitBusState SplitKeyboardLinkMessage)
  | s, [] => .ok s
  | s, buf :: rest =>
    match decode_frame buf with
    | .ok frame =>
      match handle_rx_frame cap now recvf { s with last_recv_frame_time := now } frame with
      | .error e => .error e
      | .ok (s', cont, _) =>
        if cont then do_rx cap now recvf s' rest else .ok s'
    | .error _ => do_rx cap now recvf s rest

/-- Representability of a `SplitKeyboardLinkMessage`: its fields are bytes. -/
def msg_wf : SplitKeyboardLinkMessage → Prop
  | .MatrixKeyDown row col => row < 256 ∧ col < 256
  | .MatrixKeyUp row col => row < 256 ∧ col < 256

/-- Representability of a frame body: any control body, or a transport
message with byte fields. -/
def content_wf : FrameContent SplitKeyboardLinkMessage → Prop
  | .TransportMessage m => msg_wf m
  | _ => True

/-! ## Bit matrix and pressed-key count (`dxkb-common/src/util/bitmatrix.rs`,
`dxkb-core/src/keyboard.rs`) -/

/-- `ColBitMatrixLayout::<COLS>::set_state` (`bitmatrix.rs` lines 33-41) on
the backing row word (the crabtime macro picks the narrowest of `u8`, `u16`,
`u32`, `u64`, `u128` with `W ≥ COLS` bits): `*elem |= 1 << col` to set,
`*elem &= !(1 << col)` to clear (`!` on a `W`-bit word is xor with
`2^W - 1`), returning whether the word changed. -/
def set_state (W elem col : Nat) (value : Bool) : Bool × Nat :=
  let new := if value then elem ||| (1 <<< col)
             else elem &&& ((2 ^ W - 1) ^^^ (1 <<< col))
  (decide (elem ≠ new), new)

/-- `BitMatrix::set_value` (`bitmatrix.rs` lines 76-81): update the bit at
(`row`, `col`); the source asserts `row < ROWS` and `col < COLS`. -/
def BitMatrix.set_value (W : Nat) (buf : List Nat) (row col : Nat)
    (value : Bool) : Bool × List Nat :=
  let r := set_state W (buf.getD row 0) col value
  (r.1, buf.set row r.2)

/-- The key-state fields of `SplitKeyboardLayout` that
`set_real_key_state` touches: the `BitMatrix` row words and the `u16`
`pressed_keys_count` (wrapping arithmetic made explicit with `% 65536`). -/
structure KeyStates where
  key_states : List Nat
  pressed_keys_count : Nat
deriving DecidableEq

/-- Initial key state (`SplitKeyboardLayout::new`): `ROWS` cleared row
words, count 0. -/
def KeyStates.init (ROWS : Nat) : KeyStates :=
  ⟨List.replicate ROWS 0, 0⟩

/-- `SplitKeyboardLayout::set_real_key_state` (`keyboard.rs` lines 688-702):
update the matrix bit via `BitMatrix::set_value`; when the bit actually
changed, decrement the count on `Released` and increment it on `Pressed`
(`u16` wrapping). -/
def set_real_key_state (W : Nat) (s : KeyStates) (row col : Nat)
    (state : KeyState) : Bool × KeyStates :=
  let r := BitMatrix.set_value W s.key_states row col state.to_bool
  if r.1 then
    match state with
    | .Released => (r.1, ⟨r.2, (s.pressed_keys_count + 65535) % 65536⟩)
    | .Pressed => (r.1, ⟨r.2, (s.pressed_keys_count + 1) % 65536⟩)
  else (r.1, ⟨r.2, s.pressed_keys_count⟩)

/-- The number of set bits among the low `W` bits of a word. -/
def bit_count (W w : Nat) : Nat :=
  Finset.sum (Finset.range W) fun i => if w.testBit i then 1 else 0

/-- The number of set bits in the whole bit matrix. -/
def matrix_bit_count (W : Nat) (buf : List Nat) : Nat :=
  (buf.map (bit_count W)).sum

/-- Fold a list of key-state updates (row, column, new state) through
`set_real_key_state`, as the key-event pipeline does for local and remote
events. -/
def apply_updates (W : Nat) : KeyStates → List (Nat × Nat × KeyState) → KeyStates
  | s, [] => s
  | s, (row, col, st) :: rest =>
    apply_updates W (set_real_key_state W s row col st).2 rest

/-- Invariant tying the cached count to the matrix: the count equals the
number of set bits, and every row word uses only its low `W` bits. -/
def KeyStatesInv (W : Nat) (s : KeyStates) : Prop :=
  s.pressed_keys_count = matrix_bit_count W s.key_states ∧
  ∀ w ∈ s.key_states, ∀ i, W ≤ i → w.testBit i = false

end Dxkb

namespace Dxkb

/-- Claim C1 (code evaluation at the failing input): starting from the
initial layout state with `LAYERS = 2` (stack empty, current layer 0),
`push_layer 1` makes layer 1 current, and the following `pop_layer` empties
the stack but sets `current_layer` to the popped element `1` — it does not
return to the pre-push value `0` (and an empty stack does not mean layer 0),
contrary to the claim. -/
theorem pop_layer_after_push_keeps_pushed_layer :
    (((SplitKeyboardLayout.init 2).push_layer 1).2.pop_layer).2.layers_stack = []
    ∧ (((SplitKeyboardLayout.init 2).push_layer 1).2.pop_layer).2.current_layer = 1
    ∧ (((SplitKeyboardLayout.init 2).push_layer 1).2.pop_layer).1 = some 1
    ∧ ¬ (((SplitKeyboardLayout.init 2).push_layer 1).2.pop_layer).2.current_layer = 0 := by
  decide

/-- Claim C9 counterexample: with `LENGTH = 2` the last valid index is `1`,
yet `increment` returns `some ⟨2⟩` (it only returns `none` once the stored
value is already `≥ LENGTH` or is `255`), and the contained value `2` is not
strictly less than `LENGTH = 2`. -/
theorem increment_at_last_valid_index_exceeds_bound :
    BoundedU8.increment (⟨1⟩ : BoundedU8 2) = some ⟨2⟩ ∧ ¬ (2 < 2) := by
  decide

/-- Claim C9 (amended): `BoundedU8::increment` returns `none` exactly when
the stored value is already `≥ LENGTH` or equals `255`; whenever it returns
`some c`, the new value is the old value plus one, so for a stored valid
value `v < LENGTH` the result is at most `LENGTH` — it may equal `LENGTH`
itself (one past the last valid index), and the strict bound `< LENGTH` is
not guaranteed by `increment`. -/
theorem increment_amended (LENGTH : Nat) (b : BoundedU8 LENGTH) :
    (b.increment = none ↔ (LENGTH ≤ b.val ∨ b.val = 255)) ∧
    (∀ c : BoundedU8 LENGTH, b.increment = some c →
      c.val = b.val + 1 ∧ (b.val < LENGTH → c.val ≤ LENGTH)) := by
  constructor
  · unfold BoundedU8.increment
    by_cases h : LENGTH ≤ b.val ∨ b.val = 255 <;> simp [h]
  · intro c hc
    unfold BoundedU8.increment at hc
    by_cases h : LENGTH ≤ b.val ∨ b.val = 255
    · simp [h] at hc
    · simp [h] at hc
      subst hc
      exact ⟨rfl, fun hv => hv⟩

/-- Witness for `increment_amended` at `LENGTH = 3`, `b = ⟨1⟩`, `c = ⟨2⟩`:
the hypothesis `b.increment = some c` is discharged by evaluation. -/
theorem increment_amended_witness :
    (⟨2⟩ : BoundedU8 3).val = 1 + 1 ∧ ((1:Nat) < 3 → (⟨2⟩ : BoundedU8 3).val ≤ 3) :=
  (increment_amended 3 ⟨1⟩).2 ⟨2⟩ (by decide)

/-- Resolving membership in a cons cell whose head differs. -/
theorem mem_cons_resolve {a b : Nat} {l : List Nat} (hb : ¬ b = a) (h : a ∈ b :: l) :
    a ∈ l := by
  rcases List.mem_cons.1 h with h' | h'
  · exact absurd h'.symm hb
  · exact h'

/-- The scan loop returns `Found` exactly when the needle occurs in the
remaining slots. -/
theorem lookup_go_found_iff (needle empty : Nat) :
    ∀ (l : List Nat) (i : Nat) (acc : Option Nat),
      (∃ j, lookup_or_find_empty_go needle empty i acc l = .Found j) ↔ needle ∈ l := by
  intro l
  induction l with
  | nil =>
    intro i acc
    cases acc <;> simp [lookup_or_find_empty_go]
  | cons b rest ih =>
    intro i acc
    by_cases hb : b = needle
    · subst hb
      simp [lookup_or_find_empty_go]
    · simp only [lookup_or_find_empty_go, if_neg hb]
      rw [ih (i + 1) (if b = empty then some i else acc)]
      constructor
      · exact fun h => List.mem_cons_of_mem _ h
      · exact fun h => mem_cons_resolve hb h

/-- The scan loop returns `Full` only when neither the needle nor an empty
slot occurs, and the accumulator was empty. -/
theorem lookup_go_full (needle empty : Nat) :
    ∀ (l : List Nat) (i : Nat) (acc : Option Nat),
      lookup_or_find_empty_go needle empty i acc l = .Full →
      needle ∉ l ∧ empty ∉ l ∧ acc = none := by
  intro l
  induction l with
  | nil =>
    intro i acc h
    cases acc <;> simp_all [lookup_or_find_empty_go]
  | cons b rest ih =>
    intro i acc h
    by_cases hb : b = needle
    · simp [lookup_or_find_empty_go, hb] at h
    · simp only [lookup_or_find_empty_go, if_neg hb] at h
      obtain ⟨h1, h2, h3⟩ := ih (i + 1) (if b = empty then some i else acc) h
      by_cases hbe : b = empty
      · simp [hbe] at h3
      · simp [if_neg hbe] at h3
        refine ⟨?_, ?_, h3⟩
        · exact fun hmem => h1 (mem_cons_resolve hb hmem)
        · exact fun hmem => h2 (mem_cons_resolve hbe hmem)

/-- The scan loop returns `Empty j` only when the needle is absent, and `j`
is either (offset by `i`) the index of the LAST empty slot of the remainder,
or was already in the accumulator with no empty slot in the remainder. -/
theorem lookup_go_empty (needle empty : Nat) :
    ∀ (l : List Nat) (i : Nat) (acc : Option Nat) (j : Nat),
      lookup_or_find_empty_go needle empty i acc l = .Empty j →
      needle ∉ l ∧
      ((∃ k, k < l.length ∧ j = i + k ∧ l.get? k = some empty ∧
          ∀ m, k < m → m < l.length → l.get? m ≠ some empty)
        ∨ (acc = some j ∧ empty ∉ l)) := by
  intro l
  induction l with
  | nil =>
    intro i acc j h
    cases acc with
    | none => simp [lookup_or_find_empty_go] at h
    | some a =>
      simp [lookup_or_find_empty_go] at h
      subst h
      simp
  | cons b rest ih =>
    intro i acc j h
    by_cases hb : b = needle
    · simp [lookup_or_find_empty_go, hb] at h
    · simp only [lookup_or_find_empty_go, if_neg hb] at h
      obtain ⟨h1, h2⟩ := ih (i + 1) (if b = empty then some i else acc) j h
      refine ⟨fun hmem => h1 (mem_cons_resolve hb hmem), ?_⟩
      rcases h2 with ⟨k, hk, hj, hget, hafter⟩ | ⟨hacc, hnomem⟩
      · left
        refine ⟨k + 1, by simpa using hk, by omega, by simpa using hget, ?_⟩
        intro m hm hmlen
        cases m with
        | zero => omega
        | succ m' =>
          simpa using hafter m' (by omega) (by simpa using hmlen)
      · by_cases hbe : b = empty
        · simp [hbe] at hacc
          left
          refine ⟨0, by simp, by omega, by simp [hbe], ?_⟩
          intro m hm hmlen
          cases m with
          | zero => omega
          | succ m' =>
            intro hge
            exact hnomem (List.get?_mem (by simpa using hge))
        · simp [if_neg hbe] at hacc
          right
          exact ⟨hacc, fun hmem => hnomem (mem_cons_resolve hbe hmem)⟩

/-- Claim C4 counterexample: with all 31 consumer-control slots empty,
pressing usage `2` writes it into the LAST slot (index 30), not the first:
the resulting slot array is thirty zeroes followed by `2`, which differs
from the array the claim requires (where slot 0 holds `2`). -/
theorem press_consumer_control_writes_last_empty_slot :
    (press_consumer_control_key CcReport.init 2).1 = .ok () ∧
    (press_consumer_control_key CcReport.init 2).2.pressed_buttons
      = List.replicate 30 0 ++ [2] ∧
    (press_consumer_control_key CcReport.init 2).2.pressed_buttons
      ≠ 2 :: List.replicate 30 0 := by
  refine ⟨rfl, by decide, by decide⟩

/-- Claim C4 (amended): for an in-range consumer-control usage, `press`
fails with the already-pressed error (`InvalidState`) and leaves the report
unchanged when the usage occupies a slot; otherwise it writes the usage into
the LAST zero slot (the highest-indexed one, not the first) and marks the
report dirty; and when all 31 slots are non-zero and the usage is absent it
returns `Rollover` with the slot array and dirty flag unchanged. -/
theorem press_consumer_control_amended (st : CcReport) (key : Nat)
    (hmin : REPORT_HID_CC_USAGE_MIN ≤ key) (hmax : key ≤ REPORT_HID_CC_USAGE_MAX)
    (hlen : st.pressed_buttons.length = 31) :
    (key ∈ st.pressed_buttons →
      press_consumer_control_key st key = (.error .InvalidState, st)) ∧
    (key ∉ st.pressed_buttons → (0:Nat) ∈ st.pressed_buttons →
      ∃ i, i < 31 ∧ st.pressed_buttons.get? i = some 0 ∧
        (∀ j, i < j → st.pressed_buttons.get? j ≠ some 0) ∧
        press_consumer_control_key st key
          = (.ok (), ⟨st.pressed_buttons.set i key, true⟩)) ∧
    (key ∉ st.pressed_buttons → (0:Nat) ∉ st.pressed_buttons →
      press_consumer_control_key st key = (.error .Rollover, st)) := by
  have hbounds : ¬ (key < REPORT_HID_CC_USAGE_MIN ∨ REPORT_HID_CC_USAGE_MAX < key) := by
    omega
  refine ⟨?_, ?_, ?_⟩
  · intro hmem
    obtain ⟨j, hj⟩ := (lookup_go_found_iff key 0 st.pressed_buttons 0 none).2 hmem
    have hj' : lookup_or_find_empty_mut st.pressed_buttons key 0 = .Found j := hj
    unfold press_consumer_control_key
    rw [if_neg hbounds, hj']
  · intro hnmem hzero
    rcases hres : lookup_or_find_empty_mut st.pressed_buttons key 0 with j | j | _
    · exact absurd ((lookup_go_found_iff key 0 st.pressed_buttons 0 none).1 ⟨j, hres⟩) hnmem
    · obtain ⟨-, hchar⟩ := lookup_go_empty key 0 st.pressed_buttons 0 none j hres
      rcases hchar with ⟨k, hk, hj, hget, hafter⟩ | ⟨hacc, -⟩
      · have hjk : j = k := by omega
        subst hjk
        refine ⟨j, by omega, hget, ?_, ?_⟩
        · intro m hm
          by_cases hmlen : m < st.pressed_buttons.length
          · exact hafter m hm hmlen
          · rw [List.get?_eq_none.2 (by omega)]
            simp
        · unfold press_consumer_control_key
          rw [if_neg hbounds, hres]
      · simp at hacc
    · obtain ⟨-, hnz, -⟩ := lookup_go_full key 0 st.pressed_buttons 0 none hres
      exact absurd hzero hnz
  · intro hnmem hnzero
    rcases hres : lookup_or_find_empty_mut st.pressed_buttons key 0 with j | j | _
    · exact absurd ((lookup_go_found_iff key 0 st.pressed_buttons 0 none).1 ⟨j, hres⟩) hnmem
    · obtain ⟨-, hchar⟩ := lookup_go_empty key 0 st.pressed_buttons 0 none j hres
      rcases hchar with ⟨k, hk, hj, hget, -⟩ | ⟨hacc, -⟩
      · exact absurd (List.get?_mem hget) hnzero
      · simp at hacc
    · unfold press_consumer_control_key
      rw [if_neg hbounds, hres]

/-- Witness for `press_consumer_control_amended`: with all 31 slots holding
the non-zero usage `1` and the absent in-range usage `2`, the press returns
`Rollover` and leaves the report (slots and dirty flag) unchanged. -/
theorem press_consumer_control_amended_witness :
    press_consumer_control_key ⟨List.replicate 31 1, false⟩ 2
      = (.error .Rollover, ⟨List.replicate 31 1, false⟩) :=
  (press_consumer_control_amended ⟨List.replicate 31 1, false⟩ 2
    (by decide) (by decide) (by decide)).2.2 (by decide) (by decide)

/-- Adding an elapsed time that does not cross the 254-ms wrap. -/
theorem mod254_add_small (t k : Nat) (h : t % 254 + k ≤ 253) :
    (t + k) % 254 = t % 254 + k := by
  rw [Nat.add_mod, Nat.mod_eq_of_lt (show k < 254 by omega),
    Nat.mod_eq_of_lt (show t % 254 + k < 254 by omega)]

/-- Adding an elapsed time that crosses the 254-ms wrap exactly once. -/
theorem mod254_add_wrap (t k : Nat) (hk : k < 254) (h : 254 ≤ t % 254 + k) :
    (t + k) % 254 = t % 254 + k - 254 := by
  have h1 : t % 254 < 254 := Nat.mod_lt _ (by norm_num)
  rw [Nat.add_mod, Nat.mod_eq_of_lt hk, Nat.mod_eq_sub_mod h,
    Nat.mod_eq_of_lt (by omega)]

/-- A quiescent slot with a differing sample: record the wrapped time and
return (emit) the new state. -/
theorem debounce_quiescent (D COLS : Nat) (st : DebouncerEagerPerKey)
    (row col t : Nat) (prev read : KeyState)
    (hq : st.last_change_millis.getD (row * COLS + col) 0xff = 0xff)
    (hpr : prev ≠ read) :
    debounce D COLS st row col t prev read
      = (read, ⟨st.last_change_millis.set (row * COLS + col) (t % 254)⟩) := by
  have h1 : ¬ (st.last_change_millis.getD (row * COLS + col) 0xff ≠ 0xff) :=
    fun h => h hq
  simp only [debounce]
  rw [if_neg h1, if_pos hpr]

/-- An armed slot within the lockout window: the sample is ignored. -/
theorem debounce_locked (D COLS : Nat) (st : DebouncerEagerPerKey)
    (row col t : Nat) (prev read : KeyState)
    (hne : st.last_change_millis.getD (row * COLS + col) 0xff ≠ 0xff)
    (hlt : diff_time (t % 254) (st.last_change_millis.getD (row * COLS + col) 0xff) < D) :
    debounce D COLS st row col t prev read = (prev, st) := by
  simp only [debounce]
  rw [if_pos hne, if_pos hlt]

/-- An armed slot past the lockout window: re-arm, and record a
still-differing sample. -/
theorem debounce_timeout (D COLS : Nat) (st : DebouncerEagerPerKey)
    (row col t : Nat) (prev read : KeyState)
    (hne : st.last_change_millis.getD (row * COLS + col) 0xff ≠ 0xff)
    (hge : D ≤ diff_time (t % 254) (st.last_change_millis.getD (row * COLS + col) 0xff)) :
    debounce D COLS st row col t prev read
      = (read, ⟨st.last_change_millis.set (row * COLS + col)
          (if prev ≠ read then t % 254 else 0xff)⟩) := by
  have hnlt : ¬ diff_time (t % 254) (st.last_change_millis.getD (row * COLS + col) 0xff) < D := by
    omega
  simp only [debounce]
  rw [if_pos hne, if_neg hnlt]
  by_cases hpr : prev = read
  · have h2 : ¬ (prev ≠ read) := fun h => h hpr
    rw [if_neg h2, if_neg h2]
  · rw [if_pos hpr, if_pos hpr]

/-- Claim C6 counterexample: with `DEBOUNCE_MS = 20`, a quiescent key sees a
`Pressed` edge at 240 ms (slot := 240); the opposite edge arrives 19 ms
(= `DEBOUNCE_MS - 1`) later at 259 ms, but the wrapped timestamp is
`259 % 254 = 5` and `diff_time(5, 240) = 255 - 240 + 5 = 20`, so the code
treats the lockout as over and ACCEPTS the edge (returning `Released` and
rewriting the slot to 5) where the claim requires it to be locked out. -/
theorem debounce_edge_locked_out_claim_fails_on_wrap :
    (debounce 20 1 (DebouncerEagerPerKey.init 1) 0 0 240 .Released .Pressed).1
      = .Pressed ∧
    (debounce 20 1 (DebouncerEagerPerKey.init 1) 0 0 240 .Released .Pressed).2.last_change_millis
      = [240] ∧
    240 + (20 - 1) = 259 ∧
    (debounce 20 1 ⟨[240]⟩ 0 0 259 .Pressed .Released).1 = .Released ∧
    (debounce 20 1 ⟨[240]⟩ 0 0 259 .Pressed .Released).2.last_change_millis = [5] := by
  decide

/-- Claim C6 (amended): the eager per-key debouncer satisfies: (1) when a
key's slot is quiescent (`0xFF`) and the sampled level differs from the
stored state, the new state is returned for recording immediately and the
slot is set to the millisecond time modulo 254; (2) while the slot is armed
and `diff_time` of the wrapped times is strictly below `DEBOUNCE_MS` the
sample is ignored (stored state returned); (3) once that difference reaches
`DEBOUNCE_MS` the slot re-arms to quiescent and a still-differing sample is
recorded and emitted; (4) an edge arriving `DEBOUNCE_MS - 1` ms after an
event is locked out PROVIDED the wrapped clock does not wrap between the two
samples (when it wraps, `diff_time` — which wraps over 255 while the
timestamps wrap modulo 254 — overestimates the elapsed time by one and such
an edge can be accepted); and (5) an edge arriving `DEBOUNCE_MS + 1` ms
after an event is always accepted. -/
theorem debounce_amended (D COLS : Nat) (st : DebouncerEagerPerKey)
    (row col : Nat) (hidx : row * COLS + col < st.last_change_millis.length) :
    (∀ t prev read,
      st.last_change_millis.getD (row * COLS + col) 0xff = 0xff → prev ≠ read →
      debounce D COLS st row col t prev read
        = (read, ⟨st.last_change_millis.set (row * COLS + col) (t % 254)⟩)) ∧
    (∀ t prev read,
      st.last_change_millis.getD (row * COLS + col) 0xff ≠ 0xff →
      diff_time (t % 254) (st.last_change_millis.getD (row * COLS + col) 0xff) < D →
      debounce D COLS st row col t prev read = (prev, st)) ∧
    (∀ t prev read,
      st.last_change_millis.getD (row * COLS + col) 0xff ≠ 0xff →
      D ≤ diff_time (t % 254) (st.last_change_millis.getD (row * COLS + col) 0xff) →
      debounce D COLS st row col t prev read
        = (read, ⟨st.last_change_millis.set (row * COLS + col)
            (if prev ≠ read then t % 254 else 0xff)⟩)) ∧
    (∀ t prev read,
      st.last_change_millis.getD (row * COLS + col) 0xff = t % 254 →
      1 ≤ D → t % 254 + (D - 1) ≤ 253 →
      debounce D COLS st row col (t + (D - 1)) prev read = (prev, st)) ∧
    (∀ t prev read,
      st.last_change_millis.getD (row * COLS + col) 0xff = t % 254 →
      D + 1 < 254 → prev ≠ read →
      debounce D COLS st row col (t + (D + 1)) prev read
        = (read, ⟨st.last_change_millis.set (row * COLS + col)
            ((t + (D + 1)) % 254)⟩)) := by
  refine ⟨?_, ?_, ?_, ?_, ?_⟩
  · intro t prev read hq hpr
    exact debounce_quiescent D COLS st row col t prev read hq hpr
  · intro t prev read hne hlt
    exact debounce_locked D COLS st row col t prev read hne hlt
  · intro t prev read hne hge
    exact debounce_timeout D COLS st row col t prev read hne hge
  · intro t prev read hslot hD hnw
    have hm : t % 254 < 254 := Nat.mod_lt _ (by norm_num)
    have hne : st.last_change_millis.getD (row * COLS + col) 0xff ≠ 0xff := by
      rw [hslot]; omega
    have hw : (t + (D - 1)) % 254 = t % 254 + (D - 1) := mod254_add_small t (D - 1) hnw
    have hlt : diff_time ((t + (D - 1)) % 254)
        (st.last_change_millis.getD (row * COLS + col) 0xff) < D := by
      rw [hw, hslot]
      simp only [diff_time]
      rw [if_pos (by omega)]
      omega
    exact debounce_locked D COLS st row col (t + (D - 1)) prev read hne hlt
  · intro t prev read hslot hbound hpr
    have hm : t % 254 < 254 := Nat.mod_lt _ (by norm_num)
    have hne : st.last_change_millis.getD (row * COLS + col) 0xff ≠ 0xff := by
      rw [hslot]; omega
    have hge : D ≤ diff_time ((t + (D + 1)) % 254)
        (st.last_change_millis.getD (row * COLS + col) 0xff) := by
      by_cases hcase : t % 254 + (D + 1) ≤ 253
      · rw [mod254_add_small t (D + 1) hcase, hslot]
        simp only [diff_time]
        rw [if_pos (by omega)]
        omega
      · rw [mod254_add_wrap t (D + 1) (by omega) (by omega), hslot]
        simp only [diff_time]
        rw [if_neg (by omega)]
        omega
    rw [debounce_timeout D COLS st row col (t + (D + 1)) prev read hne hge]
    simp [hpr]

/-- Witness for `debounce_amended` (the lockout conjunct, away from the wrap
boundary): after an event stored at wrapped time 10, a sample 19 ms later
(with `DEBOUNCE_MS = 20`) is ignored. -/
theorem debounce_amended_witness :
    debounce 20 1 ⟨[10]⟩ 0 0 (10 + (20 - 1)) .Pressed .Released
      = (.Pressed, ⟨[10]⟩) :=
  (debounce_amended 20 1 ⟨[10]⟩ 0 0 (by decide)).2.2.2.1 10 .Pressed .Released
    (by decide) (by decide) (by decide)

/-- Sanity check of the CRC embedding: the CRC-8-SMBUS check value, the CRC
of the ASCII bytes of the digits 1 to 9, is `0xF4`. -/
theorem crc8_check_value :
    crc8 [0x31, 0x32, 0x33, 0x34, 0x35, 0x36, 0x37, 0x38, 0x39] = 0xF4 := by
  decide

/-- Claim C7: `transfer` returns `LinkDown` whenever the link is not `Up`
(in particular in the `Sync` state), `BufferOverflow` when the link is `Up`
and the user TX queue is full, and otherwise appends the message to the user
TX queue and returns `Ok`; on either error the whole state (user queue
included) is returned unchanged. -/
theorem transfer_spec {Msg : Type} (cap : Nat) (s : SplitBusState Msg) (m : Msg) :
    (s.link_status ≠ .Up → transfer cap s m = (.error .LinkDown, s)) ∧
    (s.link_status = .Up → s.user_tx_queue.length = cap →
      transfer cap s m = (.error .BufferOverflow, s)) ∧
    (s.link_status = .Up → s.user_tx_queue.length ≠ cap →
      transfer cap s m
        = (.ok (), { s with user_tx_queue := s.user_tx_queue ++ [m] })) := by
  refine ⟨?_, ?_, ?_⟩
  · intro h
    unfold transfer
    rw [if_pos h]
  · intro hup hfull
    unfold transfer
    rw [if_neg (by simp [hup]), if_pos hfull]
  · intro hup hroom
    unfold transfer
    rw [if_neg (by simp [hup]), if_neg hroom]

/-- Witness for `transfer_spec`: a freshly initialized link (status `Down`)
rejects a transfer with `LinkDown` and keeps the state unchanged. -/
theorem transfer_spec_witness :
    transfer 32 (SplitBus.init SplitKeyboardLinkMessage 0) (.MatrixKeyDown 1 2)
      = (.error .LinkDown, SplitBus.init SplitKeyboardLinkMessage 0) :=
  (transfer_spec 32 (SplitBus.init SplitKeyboardLinkMessage 0)
    (.MatrixKeyDown 1 2)).1 (by decide)

/-- Claim C2: with the link `Up` (and room in the control queue for the
answer, without which the source panics), receiving a user message with
sequence `q` always enqueues `Ack(q)` in the control queue; when
`seq_diff q rx_seq` is negative the body is dropped (`recvf` not invoked,
`rx_seq` and everything but the control queue unchanged), and when it is
non-negative `rx_seq` becomes `q + 1 (mod 256)` and `recvf` is invoked on
the body, so a retransmitted duplicate is re-ACKed but never delivered
twice. -/
theorem handle_rx_frame_user_message_up {Msg : Type} (cap now : Nat)
    (recvf : Msg → Bool) (s : SplitBusState Msg) (c q : Nat) (m : Msg)
    (hup : s.link_status = .Up)
    (hroom : s.control_tx_queue.length ≠ cap) :
    (seq_diff q s.rx_seq < 0 →
      handle_rx_frame cap now recvf s ⟨c, ⟨q, .TransportMessage m⟩⟩
        = .ok ({ s with control_tx_queue := s.control_tx_queue ++ [⟨q, .Ack⟩] },
               true, none)) ∧
    (0 ≤ seq_diff q s.rx_seq →
      handle_rx_frame cap now recvf s ⟨c, ⟨q, .TransportMessage m⟩⟩
        = .ok ({ s with control_tx_queue := s.control_tx_queue ++ [⟨q, .Ack⟩]
                        rx_seq := (q + 1) % 256 },
               recvf m, some m)) := by
  constructor
  · intro hneg
    simp [handle_rx_frame, push_control_frame, hup, hroom, hneg]
  · intro hpos
    have hnneg : ¬ seq_diff q s.rx_seq < 0 := by omega
    simp [handle_rx_frame, push_control_frame, hup, hroom, hnneg]

/-- Witness for `handle_rx_frame_user_message_up`: an `Up` link with empty
queues receiving the in-sequence user message `seq = 0` enqueues `Ack(0)`,
advances `rx_seq` to 1 and delivers the body. -/
theorem handle_rx_frame_user_message_up_witness :
    handle_rx_frame 32 5 (fun _ => true)
      { SplitBus.init SplitKeyboardLinkMessage 0 with link_status := .Up }
      ⟨0x17, ⟨0, .TransportMessage (.MatrixKeyDown 1 2)⟩⟩
      = .ok ({ SplitBus.init SplitKeyboardLinkMessage 0 with
                link_status := .Up
                control_tx_queue := [⟨0, .Ack⟩]
                rx_seq := 1 },
             true, some (.MatrixKeyDown 1 2)) := by
  have h := (handle_rx_frame_user_message_up 32 5 (fun _ => true)
    { SplitBus.init SplitKeyboardLinkMessage 0 with link_status := .Up }
    0x17 0 (.MatrixKeyDown 1 2) (by decide) (by decide)).2 (by decide)
  simpa using h

/-- `change_link_state` towards `Up` makes the status `Up` and preserves the
queues, sequence counters and pending-ACK flag (only a transition to `Down`
clears them). -/
theorem change_link_state_up_fields {Msg : Type} (now : Nat) (s : SplitBusState Msg) :
    (change_link_state now s .Up).link_status = .Up ∧
    (change_link_state now s .Up).control_tx_queue = s.control_tx_queue ∧
    (change_link_state now s .Up).user_tx_queue = s.user_tx_queue ∧
    (change_link_state now s .Up).tx_seq = s.tx_seq ∧
    (change_link_state now s .Up).rx_seq = s.rx_seq ∧
    (change_link_state now s .Up).user_msg_pending_ack_sent_time
      = s.user_msg_pending_ack_sent_time := by
  unfold change_link_state
  by_cases h : s.link_status = LinkStatus.Up <;> simp [h]

/-- Claim C10: receiving a `Sync` frame in ANY link state (in particular
`Down`, where the spec only describes `LinkProbe` handling) transitions the
link directly to `Up` in this single step — without passing through the
`Syncing` state — resets both `tx_seq` and `rx_seq` to zero, and enqueues a
`SyncAck` control frame; the user TX queue is preserved.  (Room for the
`SyncAck` in the control queue is assumed; a full queue panics instead.) -/
theorem handle_rx_frame_sync_goes_up {Msg : Type} (cap now : Nat)
    (recvf : Msg → Bool) (s : SplitBusState Msg) (c q : Nat)
    (hroom : s.control_tx_queue.length ≠ cap) :
    ∃ s', handle_rx_frame cap now recvf s ⟨c, ⟨q, .Sync⟩⟩ = .ok (s', true, none) ∧
      s'.link_status = .Up ∧ s'.tx_seq = 0 ∧ s'.rx_seq = 0 ∧
      s'.control_tx_queue = s.control_tx_queue ++ [⟨0, .SyncAck⟩] ∧
      s'.user_tx_queue = s.user_tx_queue := by
  obtain ⟨hst, hctl, husr, -, -, -⟩ := change_link_state_up_fields now s
  have hq : (reset_sequence_numbers (change_link_state now s .Up)).control_tx_queue
      = s.control_tx_queue := by
    simpa [reset_sequence_numbers] using hctl
  refine ⟨{ reset_sequence_numbers (change_link_state now s .Up) with
            control_tx_queue :=
              (reset_sequence_numbers (change_link_state now s .Up)).control_tx_queue
                ++ [⟨0, .SyncAck⟩] }, ?_, ?_, ?_, ?_, ?_, ?_⟩
  · simp [handle_rx_frame, push_control_frame, hq, hroom]
  · simpa [reset_sequence_numbers] using hst
  · simp [reset_sequence_numbers]
  · simp [reset_sequence_numbers]
  · simp [hq]
  · simpa [reset_sequence_numbers] using husr

/-- Witness for `handle_rx_frame_sync_goes_up`: a `Down` peer that receives
`Sync` goes directly to `Up` with zeroed sequence numbers and a queued
`SyncAck`. -/
theorem handle_rx_frame_sync_goes_up_witness :
    ∃ s', handle_rx_frame 32 7 (fun _ : SplitKeyboardLinkMessage => true)
        (SplitBus.init SplitKeyboardLinkMessage 0) ⟨0x42, ⟨0, .Sync⟩⟩
        = .ok (s', true, none) ∧
      s'.link_status = .Up ∧ s'.tx_seq = 0 ∧ s'.rx_seq = 0 ∧
      s'.control_tx_queue
        = (SplitBus.init SplitKeyboardLinkMessage 0).control_tx_queue ++ [⟨0, .SyncAck⟩] ∧
      s'.user_tx_queue = (SplitBus.init SplitKeyboardLinkMessage 0).user_tx_queue :=
  handle_rx_frame_sync_goes_up 32 7 (fun _ => true)
    (SplitBus.init SplitKeyboardLinkMessage 0) 0x42 0 (by decide)

/-- ssmarshal round-trip at the content level: deserializing a serialized
frame body recovers the body, consuming exactly its bytes. -/
theorem deserialize_serialize_content (c : FrameContent SplitKeyboardLinkMessage) :
    deserialize_content (serialize_content c)
      = some (c, (serialize_content c).length) := by
  cases c with
  | TransportMessage m =>
    cases m <;>
      simp [serialize_content, serialize_msg, deserialize_content, deserialize_msg]
  | LinkProbe => rfl
  | Ack => rfl
  | SyncAck => rfl
  | Sync => rfl

/-- Claim C3: for every representable frame body and sequence byte, the
encoded frame is the prelude byte `0x99`, then one CRC-8-SMBUS byte computed
over the serialized `seq`/`kind`/body bytes, then exactly those bytes; and
decoding the encoded frame succeeds, recovering the same sequence number and
body. -/
theorem frame_encode_decode_roundtrip (s : Nat)
    (c : FrameContent SplitKeyboardLinkMessage)
    (hs : s < 256) (hc : content_wf c) :
    encode_frame ⟨s, c⟩
      = 0x99 :: crc8 (s :: serialize_content c) :: s :: serialize_content c ∧
    decode_frame (encode_frame ⟨s, c⟩)
      = .ok ⟨crc8 (s :: serialize_content c), ⟨s, c⟩⟩ := by
  refine ⟨rfl, ?_⟩
  have hdc := deserialize_serialize_content c
  unfold decode_frame encode_frame
  cases c with
  | TransportMessage m =>
    cases m <;>
      simp [serialize_envelope, serialize_content, serialize_msg,
        deserialize_envelope, deserialize_content, deserialize_msg, List.take]
  | LinkProbe =>
    simp [serialize_envelope, serialize_content, deserialize_envelope,
      deserialize_content, List.take]
  | Ack =>
    simp [serialize_envelope, serialize_content, deserialize_envelope,
      deserialize_content, List.take]
  | SyncAck =>
    simp [serialize_envelope, serialize_content, deserialize_envelope,
      deserialize_content, List.take]
  | Sync =>
    simp [serialize_envelope, serialize_content, deserialize_envelope,
      deserialize_content, List.take]

/-- Witness for `frame_encode_decode_roundtrip` at `seq = 7` and body
`MatrixKeyDown(3, 4)`. -/
theorem frame_encode_decode_roundtrip_witness :
    encode_frame ⟨7, .TransportMessage (.MatrixKeyDown 3 4)⟩
      = 0x99 :: crc8 [7, 4, 0, 3, 4] :: [7, 4, 0, 3, 4] ∧
    decode_frame (encode_frame ⟨7, .TransportMessage (.MatrixKeyDown 3 4)⟩)
      = .ok ⟨crc8 [7, 4, 0, 3, 4], ⟨7, .TransportMessage (.MatrixKeyDown 3 4)⟩⟩ := by
  have h := frame_encode_decode_roundtrip 7 (.TransportMessage (.MatrixKeyDown 3 4))
    (by decide) (by exact ⟨by decide, by decide⟩)
  simpa [serialize_content, serialize_msg] using h

/-- Claim C5 (code evaluation at the failing input): with the firmware's
`TX_QUEUE_LEN = 32`, a link that is `Up` and drains 33 valid in-sequence
user frames from the bus framer in a single poll enqueues an Ack per frame
without ever transmitting; the 33rd Ack finds the control queue full and
hits the `panic!` in `push_control_frame`, aborting the core. -/
theorem do_rx_many_user_frames_hits_control_queue_panic :
    do_rx 32 0 (fun _ => true)
      { SplitBus.init SplitKeyboardLinkMessage 0 with link_status := .Up }
      ((List.range 33).map fun i =>
        encode_frame ⟨i, .TransportMessage (.MatrixKeyDown 1 2)⟩)
      = .error .ControlTxQueueFull := by
  decide

/-- Setting a bit: the target bit becomes set. -/
theorem testBit_set_self (w col : Nat) : (w ||| (1 <<< col)).testBit col = true := by
  rw [Nat.testBit_lor, Nat.one_shiftLeft, Nat.testBit_two_pow_self]
  simp

/-- Setting a bit leaves every other bit unchanged. -/
theorem testBit_set_other (w col i : Nat) (h : col ≠ i) :
    (w ||| (1 <<< col)).testBit i = w.testBit i := by
  rw [Nat.testBit_lor, Nat.one_shiftLeft, Nat.testBit_two_pow_of_ne h]
  simp

/-- Clearing a bit (for `col < W`): the target bit becomes clear. -/
theorem testBit_clear_self (W w col : Nat) (hcol : col < W) :
    (w &&& ((2 ^ W - 1) ^^^ (1 <<< col))).testBit col = false := by
  rw [Nat.testBit_land, Nat.testBit_xor, Nat.testBit_two_pow_sub_one, Nat.one_shiftLeft,
    Nat.testBit_two_pow_self]
  simp [hcol]

/-- Clearing a bit leaves every other low bit unchanged. -/
theorem testBit_clear_other (W w col i : Nat) (h : col ≠ i) (hi : i < W) :
    (w &&& ((2 ^ W - 1) ^^^ (1 <<< col))).testBit i = w.testBit i := by
  rw [Nat.testBit_land, Nat.testBit_xor, Nat.testBit_two_pow_sub_one, Nat.one_shiftLeft,
    Nat.testBit_two_pow_of_ne h]
  simp [hi]

/-- Clearing a bit keeps the high bits clear. -/
theorem testBit_clear_high (W w col i : Nat) (hcol : col < W) (hi : W ≤ i) :
    (w &&& ((2 ^ W - 1) ^^^ (1 <<< col))).testBit i = false := by
  rw [Nat.testBit_land, Nat.testBit_xor, Nat.testBit_two_pow_sub_one, Nat.one_shiftLeft,
    Nat.testBit_two_pow_of_ne (by omega : col ≠ i)]
  have hniW : ¬ i < W := by omega
  simp [hniW]

/-- Or-ing a single bit in is the identity exactly when the bit was set. -/
theorem set_word_eq_iff (w col : Nat) :
    w ||| (1 <<< col) = w ↔ w.testBit col = true := by
  constructor
  · intro h
    have htb := testBit_set_self w col
    rwa [h] at htb
  · intro h
    apply Nat.eq_of_testBit_eq
    intro i
    by_cases hci : col = i
    · subst hci
      rw [testBit_set_self, h]
    · rw [testBit_set_other w col i hci]

/-- Masking a single bit out is the identity exactly when the bit was clear
(for a word with only low bits set). -/
theorem clear_word_eq_iff (W w col : Nat) (hcol : col < W)
    (hw : ∀ i, W ≤ i → w.testBit i = false) :
    w &&& ((2 ^ W - 1) ^^^ (1 <<< col)) = w ↔ w.testBit col = false := by
  constructor
  · intro h
    have htb := testBit_clear_self W w col hcol
    rwa [h] at htb
  · intro h
    apply Nat.eq_of_testBit_eq
    intro i
    by_cases hiW : i < W
    · by_cases hci : col = i
      · subst hci
        rw [testBit_clear_self W w col hcol, h]
      · rw [testBit_clear_other W w col i hci hiW]
    · rw [testBit_clear_high W w col i hcol (by omega), hw i (by omega)]

/-- The semantics of `set_state`: the changed flag reports whether the bit
differed from the written value, the target bit takes the written value, the
other bits are untouched, and high bits stay clear. -/
theorem set_state_spec (W w col : Nat) (value : Bool) (hcol : col < W)
    (hw : ∀ i, W ≤ i → w.testBit i = false) :
    ((set_state W w col value).1 = true ↔ w.testBit col ≠ value) ∧
    (∀ i, i ≠ col → (set_state W w col value).2.testBit i = w.testBit i) ∧
    (set_state W w col value).2.testBit col = value ∧
    (∀ i, W ≤ i → (set_state W w col value).2.testBit i = false) := by
  cases value with
  | true =>
    have hred : set_state W w col true
        = (decide (w ≠ (w ||| (1 <<< col))), w ||| (1 <<< col)) := rfl
    simp only [hred, decide_eq_true_iff]
    refine ⟨?_, ?_, ?_, ?_⟩
    · constructor
      · intro hne hbit
        exact hne ((set_word_eq_iff w col).2 hbit).symm
      · intro hbit heq
        exact hbit ((set_word_eq_iff w col).1 heq.symm)
    · intro i hi
      exact testBit_set_other w col i (fun h => hi h.symm)
    · exact testBit_set_self w col
    · intro i hi
      rw [testBit_set_other w col i (by omega)]
      exact hw i hi
  | false =>
    have hred : set_state W w col false
        = (decide (w ≠ (w &&& ((2 ^ W - 1) ^^^ (1 <<< col)))),
           w &&& ((2 ^ W - 1) ^^^ (1 <<< col))) := rfl
    simp only [hred, decide_eq_true_iff]
    refine ⟨?_, ?_, ?_, ?_⟩
    · constructor
      · intro hne hbit
        exact hne ((clear_word_eq_iff W w col hcol hw).2 hbit).symm
      · intro hbit heq
        exact hbit ((clear_word_eq_iff W w col hcol hw).1 heq.symm)
    · intro i hi
      by_cases hiW : i < W
      · exact testBit_clear_other W w col i (fun h => hi h.symm) hiW
      · rw [testBit_clear_high W w col i hcol (by omega), hw i (by omega)]
    · exact testBit_clear_self W w col hcol
    · intro i hi
      exact testBit_clear_high W w col i hcol hi

/-- Flipping only bit `col` changes `bit_count` by exactly that bit. -/
theorem bit_count_update (W w w2 col : Nat) (hcol : col < W)
    (hother : ∀ i, i ≠ col → w2.testBit i = w.testBit i) :
    bit_count W w2 + (if w.testBit col then 1 else 0)
      = bit_count W w + (if w2.testBit col then 1 else 0) := by
  unfold bit_count
  have hmem : col ∈ Finset.range W := Finset.mem_range.2 hcol
  rw [← Finset.add_sum_erase _ _ hmem, ← Finset.add_sum_erase _ _ hmem]
  have hS : Finset.sum ((Finset.range W).erase col) (fun i => if w2.testBit i then 1 else 0)
      = Finset.sum ((Finset.range W).erase col) (fun i => if w.testBit i then 1 else 0) := by
    apply Finset.sum_congr rfl
    intro i hi
    rw [hother i (Finset.ne_of_mem_erase hi)]
  rw [hS]
  omega

/-- `bit_count` over `W` bits is at most `W`. -/
theorem bit_count_le (W w : Nat) : bit_count W w ≤ W := by
  unfold bit_count
  calc Finset.sum (Finset.range W) (fun i => if w.testBit i then 1 else 0)
      ≤ Finset.sum (Finset.range W) (fun _ => 1) :=
        Finset.sum_le_sum (fun i _ => by split <;> omega)
    _ = W := by simp

/-- The matrix bit count is at most rows times word width. -/
theorem matrix_bit_count_le (W : Nat) :
    ∀ buf : List Nat, matrix_bit_count W buf ≤ buf.length * W := by
  intro buf
  induction buf with
  | nil => simp [matrix_bit_count]
  | cons b rest ih =>
    simp only [matrix_bit_count, List.map_cons, List.sum_cons, List.length_cons] at *
    have hb := bit_count_le W b
    rw [Nat.succ_mul]
    omega

/-- Replacing one row word changes the matrix count by the difference of the
two words' bit counts (stated additively). -/
theorem matrix_bit_count_set (W : Nat) :
    ∀ (buf : List Nat) (row w2 : Nat), row < buf.length →
      matrix_bit_count W (buf.set row w2) + bit_count W (buf.getD row 0)
        = matrix_bit_count W buf + bit_count W w2 := by
  intro buf
  induction buf with
  | nil =>
    intro row w2 h
    simp at h
  | cons b rest ih =>
    intro row w2 h
    cases row with
    | zero =>
      simp only [List.set_cons_zero, matrix_bit_count, List.map_cons, List.sum_cons,
        List.getD_cons_zero]
      omega
    | succ r =>
      simp only [List.set_cons_succ, matrix_bit_count, List.map_cons, List.sum_cons,
        List.getD_cons_succ]
      have hr := ih r w2 (by simpa using h)
      simp only [matrix_bit_count] at hr
      omega

/-- An in-range `getD` yields a member of the list. -/
theorem list_getD_mem : ∀ (l : List Nat) (row : Nat), row < l.length → l.getD row 0 ∈ l := by
  intro l
  induction l with
  | nil =>
    intro row h
    simp at h
  | cons b rest ih =>
    intro row h
    cases row with
    | zero => simp [List.getD_cons_zero]
    | succ r =>
      rw [List.getD_cons_succ]
      exact List.mem_cons_of_mem _ (ih r (by simpa using h))

/-- One `set_real_key_state` step preserves the count/popcount invariant and
the matrix shape, and moves the count by one exactly when the bit flipped
(up for `Pressed`, down for `Released`). -/
theorem set_real_key_state_step (W : Nat) (s : KeyStates) (row col : Nat)
    (st : KeyState) (hrow : row < s.key_states.length) (hcol : col < W)
    (hcnt : s.key_states.length * W < 65536)
    (hinv : KeyStatesInv W s) :
    KeyStatesInv W (set_real_key_state W s row col st).2 ∧
    (set_real_key_state W s row col st).2.key_states.length = s.key_states.length ∧
    (set_real_key_state W s row col st).2.pressed_keys_count
      = (if (set_real_key_state W s row col st).1 then
          (match st with
           | .Pressed => s.pressed_keys_count + 1
           | .Released => s.pressed_keys_count - 1)
         else s.pressed_keys_count) := by
  obtain ⟨hc, hhigh⟩ := hinv
  have hwmem : s.key_states.getD row 0 ∈ s.key_states := list_getD_mem s.key_states row hrow
  have hwhigh := hhigh _ hwmem
  obtain ⟨hchanged, hother, hself, hhighr⟩ :=
    set_state_spec W (s.key_states.getD row 0) col st.to_bool hcol hwhigh
  have hmem2 : ∀ v ∈ s.key_states.set row (set_state W (s.key_states.getD row 0) col st.to_bool).2,
      ∀ i, W ≤ i → v.testBit i = false := by
    intro v hv i hi
    rcases List.mem_or_eq_of_mem_set hv with h | h
    · exact hhigh v h i hi
    · subst h
      exact hhighr i hi
  have hmcset := matrix_bit_count_set W s.key_states row
    (set_state W (s.key_states.getD row 0) col st.to_bool).2 hrow
  have hbcu := bit_count_update W (s.key_states.getD row 0)
    (set_state W (s.key_states.getD row 0) col st.to_bool).2 col hcol hother
  have hmcle := matrix_bit_count_le W
    (s.key_states.set row (set_state W (s.key_states.getD row 0) col st.to_bool).2)
  rw [List.length_set] at hmcle
  have hmcle0 := matrix_bit_count_le W s.key_states
  by_cases hr1 : (set_state W (s.key_states.getD row 0) col st.to_bool).1 = true
  · have htb : (s.key_states.getD row 0).testBit col ≠ st.to_bool := hchanged.1 hr1
    cases st with
    | Pressed =>
      have hb0 : (s.key_states.getD row 0).testBit col = false := by
        simpa [KeyState.to_bool] using htb
      have hb1 : (set_state W (s.key_states.getD row 0) col KeyState.Pressed.to_bool).2.testBit col
          = true := hself
      rw [hb0, hb1] at hbcu
      rw [if_neg (by simp), if_pos rfl] at hbcu
      simp only [set_real_key_state, BitMatrix.set_value, hr1, if_true]
      have hcountlt : s.pressed_keys_count + 1 < 65536 := by omega
      refine ⟨⟨?_, hmem2⟩, List.length_set _ _ _, ?_⟩
      · simp only [Nat.mod_eq_of_lt hcountlt]
        omega
      · simp only [Nat.mod_eq_of_lt hcountlt]
    | Released =>
      have hb0 : (s.key_states.getD row 0).testBit col = true := by
        simpa [KeyState.to_bool] using htb
      have hb1 : (set_state W (s.key_states.getD row 0) col KeyState.Released.to_bool).2.testBit col
          = false := hself
      rw [hb0, hb1] at hbcu
      rw [if_pos rfl, if_neg (by simp)] at hbcu
      simp only [set_real_key_state, BitMatrix.set_value, hr1, if_true]
      have hcge : 1 ≤ s.pressed_keys_count := by omega
      have hclt : s.pressed_keys_count < 65536 := by omega
      have hmod : (s.pressed_keys_count + 65535) % 65536 = s.pressed_keys_count - 1 := by
        have hsplit : s.pressed_keys_count + 65535 = 65536 + (s.pressed_keys_count - 1) := by
          omega
        rw [hsplit, Nat.add_mod_left, Nat.mod_eq_of_lt (by omega)]
      refine ⟨⟨?_, hmem2⟩, List.length_set _ _ _, ?_⟩
      · simp only [hmod]
        omega
      · simp only [hmod]
  · have hr1f : (set_state W (s.key_states.getD row 0) col st.to_bool).1 = false := by
      revert hr1
      cases (set_state W (s.key_states.getD row 0) col st.to_bool).1 <;> simp
    have htb : (s.key_states.getD row 0).testBit col = st.to_bool := by
      by_contra hne
      exact hr1 (hchanged.2 hne)
    have hr2w : (set_state W (s.key_states.getD row 0) col st.to_bool).2
        = s.key_states.getD row 0 := by
      apply Nat.eq_of_testBit_eq
      intro i
      by_cases hci : i = col
      · subst hci
        rw [hself, htb]
      · exact hother i hci
    have hred2 : set_real_key_state W s row col st
        = (false,
           ⟨s.key_states.set row (set_state W (s.key_states.getD row 0) col st.to_bool).2,
            s.pressed_keys_count⟩) := by
      simp only [set_real_key_state, BitMatrix.set_value, hr1f]
      rfl
    rw [hr2w] at hmcset
    rw [hred2, hr2w]
    refine ⟨⟨?_, ?_⟩, ?_, rfl⟩
    · dsimp only
      omega
    · dsimp only
      intro v hv i hi
      rcases List.mem_or_eq_of_mem_set hv with h | h
      · exact hhigh v h i hi
      · subst h
        exact hwhigh i hi
    · dsimp only
      exact List.length_set _ _ _

/-- Folding updates preserves the invariant and the matrix shape. -/
theorem apply_updates_inv (W : Nat) :
    ∀ (updates : List (Nat × Nat × KeyState)) (s : KeyStates),
      (∀ u ∈ updates, u.1 < s.key_states.length ∧ u.2.1 < W) →
      s.key_states.length * W < 65536 →
      KeyStatesInv W s →
      KeyStatesInv W (apply_updates W s updates) ∧
      (apply_updates W s updates).key_states.length = s.key_states.length := by
  intro updates
  induction updates with
  | nil =>
    intro s h hlen hinv
    exact ⟨hinv, rfl⟩
  | cons u rest ih =>
    intro s h hlen hinv
    obtain ⟨row, col, st⟩ := u
    obtain ⟨hrow, hcol⟩ := h _ (List.mem_cons_self _ _)
    obtain ⟨hinv2, hlen2, -⟩ :=
      set_real_key_state_step W s row col st hrow hcol hlen hinv
    have hrest := ih (set_real_key_state W s row col st).2
      (fun v hv => by
        rw [hlen2]
        exact h v (List.mem_cons_of_mem _ hv))
      (by rw [hlen2]; exact hlen) hinv2
    simp only [apply_updates]
    exact ⟨hrest.1, by rw [hrest.2, hlen2]⟩

/-- Claim C8: starting from the initial (all-released) layout key state,
after ANY sequence of in-range key-state updates (local or remote), the
`pressed_keys_count` field equals the number of set bits in the key-state
bit matrix; moreover each single update moves the count up by one exactly
when it flips a bit to pressed, down by one exactly when it flips a bit to
released, and leaves it untouched when nothing changed. -/
theorem pressed_keys_count_matches_popcount (W COLS ROWS : Nat) (hCW : COLS ≤ W)
    (hbound : ROWS * W < 65536) (updates : List (Nat × Nat × KeyState))
    (hupd : ∀ u ∈ updates, u.1 < ROWS ∧ u.2.1 < COLS) :
    (apply_updates W (KeyStates.init ROWS) updates).pressed_keys_count
      = matrix_bit_count W (apply_updates W (KeyStates.init ROWS) updates).key_states ∧
    (∀ (s : KeyStates) (row col : Nat) (st : KeyState),
      row < s.key_states.length → col < COLS → s.key_states.length * W < 65536 →
      KeyStatesInv W s →
      (set_real_key_state W s row col st).2.pressed_keys_count
        = (if (set_real_key_state W s row col st).1 then
            (match st with
             | .Pressed => s.pressed_keys_count + 1
             | .Released => s.pressed_keys_count - 1)
           else s.pressed_keys_count)) := by
  have hinit : KeyStatesInv W (KeyStates.init ROWS) := by
    constructor
    · simp [KeyStates.init, matrix_bit_count, bit_count, Nat.zero_testBit]
    · intro w hw i hi
      rw [List.eq_of_mem_replicate hw]
      exact Nat.zero_testBit i
  constructor
  · have h := apply_updates_inv W updates (KeyStates.init ROWS)
      (fun u hu => by
        obtain ⟨h1, h2⟩ := hupd u hu
        exact ⟨by simpa [KeyStates.init] using h1, by omega⟩)
      (by simpa [KeyStates.init] using hbound) hinit
    exact h.1.1
  · intro s row col st hrow hcol2 hlen hinv
    exact (set_real_key_state_step W s row col st hrow (by omega) hlen hinv).2.2

/-- Witness for `pressed_keys_count_matches_popcount` with an 8-bit word,
a 2-row matrix and three updates (two presses, one release). -/
theorem pressed_keys_count_matches_popcount_witness :
    (apply_updates 8 (KeyStates.init 2)
        [(0, 1, .Pressed), (1, 2, .Pressed), (0, 1, .Released)]).pressed_keys_count
      = matrix_bit_count 8 (apply_updates 8 (KeyStates.init 2)
        [(0, 1, .Pressed), (1, 2, .Pressed), (0, 1, .Released)]).key_states :=
  (pressed_keys_count_matches_popcount 8 8 2 (by decide) (by decide)
    [(0, 1, .Pressed), (1, 2, .Pressed), (0, 1, .Released)]
    (by decide)).1

end Dxkb
